import Mathlib

/-!
Verification of the worksheet-generator core (src/main.py) against its
specification.  The Python functions `clean_json_content`, `response`,
`json.loads` / `json.dumps` as used here, and the SQLite-backed worksheet
store are shallowly embedded as executable Lean functions over `List Char`
(one Lean `Char` per Python character).  `Option` models Python's
caught-exception / `None` outcomes.
-/

set_option maxRecDepth 20000

namespace WorksheetGen

/-- Convert a Lean string literal to the character-list representation used
throughout this development. -/
def strL (s : String) : List Char := s.data

/-- Whitespace recognized by Python's `\s` regex class and `str.strip()`
(ASCII range, which is all that the program's data contains). -/
def pyIsSpace (c : Char) : Bool :=
  c = ' ' || c = '\t' || c = '\n' || c = '\r' || c = '\x0b' || c = '\x0c'

/-- Python `str.strip()`: drop whitespace from both ends. -/
def pyStrip (s : List Char) : List Char :=
  (((s.dropWhile pyIsSpace).reverse).dropWhile pyIsSpace).reverse

/-- Whitespace skipped by Python's `json` decoder (space, tab, newline,
carriage return). -/
def jsonIsWs (c : Char) : Bool :=
  c = ' ' || c = '\t' || c = '\n' || c = '\r'

/-- Skip JSON whitespace. -/
def jsonSkipWs (s : List Char) : List Char := s.dropWhile jsonIsWs

/-- JSON values as produced by Python's `json.loads`.  Numbers keep their
source lexeme (the program never computes with numeric values, it only
checks `isinstance(item, str)`, so the lexeme is a faithful model).
Objects keep their member list in source order; lookups take the last
binding, like Python dict construction from pairs. -/
inductive Json where
  | null : Json
  | bool (b : Bool) : Json
  | num (lexeme : List Char) : Json
  | str (s : List Char) : Json
  | arr (items : List Json) : Json
  | obj (members : List ((List Char) × Json)) : Json

/-- Python dict built from pairs: a later duplicate key wins. -/
def lookupLast (key : List Char) : List ((List Char) × Json) → Option Json
  | [] => none
  | (k, v) :: rest =>
    match lookupLast key rest with
    | some r => some r
    | none => if k = key then some v else none

/-- Value of one hexadecimal digit, as accepted in a JSON `\uXXXX` escape. -/
def hexVal (c : Char) : Option Nat :=
  let n := c.toNat
  if 48 ≤ n ∧ n ≤ 57 then some (n - 48)
  else if 97 ≤ n ∧ n ≤ 102 then some (n - 87)
  else if 65 ≤ n ∧ n ≤ 70 then some (n - 55)
  else none

/-- Combine four hex digits into a code unit. -/
def hex4Val (h1 h2 h3 h4 : Char) : Option Nat :=
  match hexVal h1, hexVal h2, hexVal h3, hexVal h4 with
  | some a, some b, some c, some d => some (a * 4096 + b * 256 + c * 16 + d)
  | _, _, _, _ => none

/-- Body of a JSON string literal after the opening quote: returns the
decoded characters and the input remaining after the closing quote.
Mirrors Python's strict decoder: raw control characters are rejected,
escapes are `\" \\ \/ \b \f \n \r \t \uXXXX`, and a high surrogate must be
followed by a low surrogate (Lean `Char` cannot hold lone surrogates).
Recursion is bounded by `fuel`; every step consumes at least one input
character, so the caller-supplied fuel (one more than the input length)
never runs out. -/
def parseStringBody : Nat → List Char → Option (List Char × List Char)
  | 0, _ => none
  | fuel + 1, s =>
    match s with
    | [] => none
    | c :: rest =>
      if c = '"' then some ([], rest)
      else if c = '\\' then
        match rest with
        | [] => none
        | e :: r =>
          if e = '"' then (fun p => ('"' :: p.1, p.2)) <$> parseStringBody fuel r
          else if e = '\\' then
            (fun p => ('\\' :: p.1, p.2)) <$> parseStringBody fuel r
          else if e = '/' then
            (fun p => ('/' :: p.1, p.2)) <$> parseStringBody fuel r
          else if e = 'b' then
            (fun p => ('\x08' :: p.1, p.2)) <$> parseStringBody fuel r
          else if e = 'f' then
            (fun p => ('\x0c' :: p.1, p.2)) <$> parseStringBody fuel r
          else if e = 'n' then
            (fun p => ('\n' :: p.1, p.2)) <$> parseStringBody fuel r
          else if e = 'r' then
            (fun p => ('\x0d' :: p.1, p.2)) <$> parseStringBody fuel r
          else if e = 't' then
            (fun p => ('\t' :: p.1, p.2)) <$> parseStringBody fuel r
          else if e = 'u' then
            match r with
            | h1 :: h2 :: h3 :: h4 :: r2 =>
              match hex4Val h1 h2 h3 h4 with
              | none => none
              | some n =>
                if 0xd800 ≤ n ∧ n ≤ 0xdbff then
                  match r2 with
                  | '\\' :: 'u' :: g1 :: g2 :: g3 :: g4 :: r3 =>
                    match hex4Val g1 g2 g3 g4 with
                    | none => none
                    | some m =>
                      if 0xdc00 ≤ m ∧ m ≤ 0xdfff then
                        (fun p =>
                          (Char.ofNat
                             (0x10000 + (n - 0xd800) * 0x400 + (m - 0xdc00)) ::
                               p.1,
                           p.2)) <$> parseStringBody fuel r3
                      else none
                  | _ => none
                else if 0xdc00 ≤ n ∧ n ≤ 0xdfff then none
                else (fun p => (Char.ofNat n :: p.1, p.2)) <$>
                  parseStringBody fuel r2
            | _ => none
          else none
      else if c.toNat < 0x20 then none
      else (fun p => (c :: p.1, p.2)) <$> parseStringBody fuel rest

/-- Decimal digit test. -/
def isDigitCh (c : Char) : Bool := 48 ≤ c.toNat ∧ c.toNat ≤ 57

/-- Lex the integer-and-beyond part of a JSON number after an optional
minus sign: `(0|[1-9][0-9]*)(\.[0-9]+)?([eE][+-]?[0-9]+)?`. -/
def lexNumTail (s : List Char) : Option (List Char × List Char) :=
  let intPart : Option (List Char × List Char) :=
    match s with
    | '0' :: t => some (['0'], t)
    | c :: t =>
      if isDigitCh c ∧ c ≠ '0' then
        let ds := t.takeWhile isDigitCh
        some (c :: ds, t.drop ds.length)
      else none
    | [] => none
  match intPart with
  | none => none
  | some (ip, r1) =>
    let fracPart : Option (List Char × List Char) :=
      match r1 with
      | '.' :: t =>
        let ds := t.takeWhile isDigitCh
        if ds = [] then none else some ('.' :: ds, t.drop ds.length)
      | _ => some ([], r1)
    match fracPart with
    | none => none
    | some (fp, r2) =>
      match r2 with
      | e :: t =>
        if e = 'e' ∨ e = 'E' then
          let (sgn, t2) :=
            match t with
            | '+' :: t2 => (['+'], t2)
            | '-' :: t2 => (['-'], t2)
            | _ => ([], t)
          let ds := t2.takeWhile isDigitCh
          if ds = [] then none
          else some (ip ++ fp ++ e :: sgn ++ ds, t2.drop ds.length)
        else some (ip ++ fp, r2)
      | [] => some (ip ++ fp, r2)

/-- Lex a JSON number (with optional leading minus), returning its lexeme.
Also accepts the non-standard constants `NaN`, `Infinity`, `-Infinity`
that Python's `json.loads` accepts by default. -/
def lexNumber (s : List Char) : Option (List Char × List Char) :=
  match s with
  | 'N' :: 'a' :: 'N' :: r => some (strL "NaN", r)
  | 'I' :: 'n' :: 'f' :: 'i' :: 'n' :: 'i' :: 't' :: 'y' :: r => some (strL "Infinity", r)
  | '-' :: 'I' :: 'n' :: 'f' :: 'i' :: 'n' :: 'i' :: 't' :: 'y' :: r =>
    some (strL "-Infinity", r)
  | '-' :: t =>
    match lexNumTail t with
    | some (lx, r) => some ('-' :: lx, r)
    | none => none
  | _ =>
    match lexNumTail s with
    | some (lx, r) => some (lx, r)
    | none => none

mutual

/-- Parse one JSON value at the head of the input (no leading whitespace),
returning the value and the remaining input.  `fuel` bounds recursion; the
top-level entry point supplies enough fuel for any input of its length. -/
def parseVal : Nat → List Char → Option (Json × List Char)
  | 0, _ => none
  | fuel + 1, s =>
    match s with
    | '"' :: rest =>
      (fun p => (Json.str p.1, p.2)) <$> parseStringBody fuel rest
    | '[' :: rest =>
      let r1 := jsonSkipWs rest
      match r1 with
      | ']' :: r2 => some (Json.arr [], r2)
      | _ =>
        match parseVal fuel r1 with
        | none => none
        | some (v, r2) =>
          match parseArrRest fuel r2 with
          | none => none
          | some (vs, r3) => some (Json.arr (v :: vs), r3)
    | '{' :: rest =>
      let r1 := jsonSkipWs rest
      match r1 with
      | '}' :: r2 => some (Json.obj [], r2)
      | '"' :: r2 =>
        match parseStringBody fuel r2 with
        | none => none
        | some (k, r3) =>
          match jsonSkipWs r3 with
          | ':' :: r4 =>
            match parseVal fuel (jsonSkipWs r4) with
            | none => none
            | some (v, r5) =>
              match parseObjRest fuel r5 with
              | none => none
              | some (ms, r6) => some (Json.obj ((k, v) :: ms), r6)
          | _ => none
      | _ => none
    | 't' :: 'r' :: 'u' :: 'e' :: r => some (Json.bool true, r)
    | 'f' :: 'a' :: 'l' :: 's' :: 'e' :: r => some (Json.bool false, r)
    | 'n' :: 'u' :: 'l' :: 'l' :: r => some (Json.null, r)
    | _ =>
      match lexNumber s with
      | some (lx, r) => some (Json.num lx, r)
      | none => none

/-- After one array element: whitespace, then `,` and another element, or
`]` to close.  A `,` must be followed by a value (no trailing commas). -/
def parseArrRest : Nat → List Char → Option (List Json × List Char)
  | 0, _ => none
  | fuel + 1, s =>
    match jsonSkipWs s with
    | ']' :: r => some ([], r)
    | ',' :: r =>
      match parseVal fuel (jsonSkipWs r) with
      | none => none
      | some (v, r2) =>
        match parseArrRest fuel r2 with
        | none => none
        | some (vs, r3) => some (v :: vs, r3)
    | _ => none

/-- After one object member: whitespace, then `,` and another member, or
`}` to close. -/
def parseObjRest : Nat → List Char → Option (List ((List Char) × Json) × List Char)
  | 0, _ => none
  | fuel + 1, s =>
    match jsonSkipWs s with
    | '}' :: r => some ([], r)
    | ',' :: r =>
      match jsonSkipWs r with
      | '"' :: r2 =>
        match parseStringBody fuel r2 with
        | none => none
        | some (k, r3) =>
          match jsonSkipWs r3 with
          | ':' :: r4 =>
            match parseVal fuel (jsonSkipWs r4) with
            | none => none
            | some (v, r5) =>
              match parseObjRest fuel r5 with
              | none => none
              | some (ms, r6) => some ((k, v) :: ms, r6)
          | _ => none
      | _ => none
    | _ => none

end

/-- Python `json.loads`: skip surrounding whitespace, parse one value and
require that the whole input is consumed.  `none` models a raised
`json.JSONDecodeError`. -/
def json_loads (s : List Char) : Option Json :=
  match parseVal (s.length + 1) (jsonSkipWs s) with
  | some (j, rest) => if jsonSkipWs rest = [] then some j else none
  | none => none

/-- Hex digit characters (lowercase), as emitted by Python `json.dumps`. -/
def hexDigitChar (n : Nat) : Char :=
  if n = 0 then '0' else if n = 1 then '1' else if n = 2 then '2'
  else if n = 3 then '3' else if n = 4 then '4' else if n = 5 then '5'
  else if n = 6 then '6' else if n = 7 then '7' else if n = 8 then '8'
  else if n = 9 then '9' else if n = 10 then 'a' else if n = 11 then 'b'
  else if n = 12 then 'c' else if n = 13 then 'd' else if n = 14 then 'e'
  else 'f'

/-- Four-digit hex rendering of a code unit, as in `\uXXXX`. -/
def hex4 (n : Nat) : List Char :=
  [hexDigitChar (n / 4096 % 16), hexDigitChar (n / 256 % 16),
   hexDigitChar (n / 16 % 16), hexDigitChar (n % 16)]

/-- Encoding of one character inside a JSON string literal by Python
`json.dumps` with its default `ensure_ascii=True`: short escapes for
quote, backslash and the common controls, `\uXXXX` for other controls and
all non-ASCII characters, surrogate pairs beyond the BMP. -/
def encodeChar (c : Char) : List Char :=
  if c = '"' then ['\\', '"']
  else if c = '\\' then ['\\', '\\']
  else if c = '\x08' then ['\\', 'b']
  else if c = '\t' then ['\\', 't']
  else if c = '\n' then ['\\', 'n']
  else if c = '\x0c' then ['\\', 'f']
  else if c = '\x0d' then ['\\', 'r']
  else if c.toNat < 0x20 then '\\' :: 'u' :: hex4 c.toNat
  else if c.toNat < 0x7f then [c]
  else if c.toNat < 0x10000 then '\\' :: 'u' :: hex4 c.toNat
  else
    '\\' :: 'u' :: hex4 (0xd800 + (c.toNat - 0x10000) / 0x400) ++
    '\\' :: 'u' :: hex4 (0xdc00 + (c.toNat - 0x10000) % 0x400)

/-- Body of the `json.dumps` encoding of a string. -/
def encodeStrBody (s : List Char) : List Char :=
  s.foldr (fun c acc => encodeChar c ++ acc) []

/-- Encoding of a string by `json.dumps`, quotes included. -/
def encodeString (s : List Char) : List Char :=
  '"' :: encodeStrBody s ++ ['"']

/-- Comma-space separated rendering of the encoded strings of a list, as
`json.dumps` produces with its default separators. -/
def dumpsStrItems : List (List Char) → List Char
  | [] => []
  | [s] => encodeString s
  | s :: rest => encodeString s ++ ',' :: ' ' :: dumpsStrItems rest

/-- Python `json.dumps` applied to a list of strings — the only shape the
program ever encodes (`json.dumps(worksheet_content)` on the validated
nine-string list): `["e1", "e2", ...]` with `", "` separators and
`ensure_ascii` string escaping. -/
def json_dumps_strings (ws : List (List Char)) : List Char :=
  '[' :: dumpsStrItems ws ++ [']']

/-- The separated tail of `dumpsStrItems`: everything after the first
encoded item. -/
def sepItems : List (List Char) → List Char
  | [] => []
  | s :: rest => ',' :: ' ' :: encodeString s ++ sepItems rest

/-- Python `re.sub(r',\s*}', '}', s)`, with explicit fuel: scan left to right; a
comma followed by optional whitespace and a closing brace is replaced by
the brace alone, and scanning resumes after the match.  Every step
consumes at least one input character, so fuel equal to the input length
(supplied by `subCommaBrace`) never runs out. -/
def subCommaBraceF : Nat → List Char → List Char
  | 0, s => s
  | _, [] => []
  | f + 1, c :: rest =>
    if c = ',' then
      match rest.dropWhile pyIsSpace with
      | '}' :: r3 => '}' :: subCommaBraceF f r3
      | _ => ',' :: subCommaBraceF f rest
    else c :: subCommaBraceF f rest

/-- Python `re.sub(r',\s*}', '}', s)`. -/
def subCommaBrace (s : List Char) : List Char := subCommaBraceF s.length s

/-- Python `re.sub(r'{\s*"', '{"', s)`, with explicit fuel: an opening brace,
optional whitespace and a double quote are replaced by brace-quote,
resuming after the match. -/
def subBraceQuoteF : Nat → List Char → List Char
  | 0, s => s
  | _, [] => []
  | f + 1, c :: rest =>
    if c = '{' then
      match rest.dropWhile pyIsSpace with
      | '"' :: r3 => '{' :: '"' :: subBraceQuoteF f r3
      | _ => '{' :: subBraceQuoteF f rest
    else c :: subBraceQuoteF f rest

/-- Python `re.sub(r'{\s*"', '{"', s)`. -/
def subBraceQuote (s : List Char) : List Char := subBraceQuoteF s.length s

/-- The cleanup applied to each extracted candidate in
`clean_json_content`: trailing-comma removal, brace-quote whitespace
collapse, then `strip()`. -/
def cleanCandidate (c : List Char) : List Char :=
  pyStrip (subBraceQuote (subCommaBrace c))

/-- The structural check in `clean_json_content`: the parsed value has a
`worksheet` key holding a list of exactly 9 strings, each non-empty after
stripping.  A parsed value of any other shape fails the check (in Python
this is either a `False` condition or a caught `TypeError`). -/
def validateWorksheet (j : Json) : Bool :=
  match j with
  | Json.obj members =>
    match lookupLast (strL "worksheet") members with
    | some (Json.arr items) =>
      items.length == 9 &&
      items.all (fun it =>
        match it with
        | Json.str s => !(pyStrip s).isEmpty
        | _ => false)
    | _ => false
  | _ => false

/-- Does `pat` occur at the head of `s`? -/
def startsWithL : List Char → List Char → Bool
  | [], _ => true
  | _ :: _, [] => false
  | p :: ps, c :: cs => p = c && startsWithL ps cs

/-- The literal `"worksheet"` (quotes included) required by the targeted
regex `\{[^}]*"worksheet"\s*:\s*\[[^\]]+\][^}]*\}` of strategy 1. -/
def pWorksheet : List Char := '"' :: strL "worksheet" ++ ['"']

/-- Continuation of the strategy-1 regex after the `"worksheet"` literal:
`\s*:\s*\[[^\]]+\][^}]*\}`.  Each quantified class here is followed by a
character excluded from the class, so matching is deterministic: skip
whitespace, require `:`, skip whitespace, require `[`, take the maximal
run without `]` (non-empty), require `]`, take the maximal run without
`}`, require `}`.  Returns the input remaining after the match. -/
def afterKey (s : List Char) : Option (List Char) :=
  match s.dropWhile pyIsSpace with
  | ':' :: s2 =>
    match s2.dropWhile pyIsSpace with
    | '[' :: s4 =>
      let inner := s4.takeWhile (fun c => c ≠ ']')
      if inner.isEmpty then none
      else
        match s4.drop inner.length with
        | ']' :: s6 =>
          let tail2 := s6.takeWhile (fun c => c ≠ '}')
          match s6.drop tail2.length with
          | '}' :: s7 => some s7
          | _ => none
        | _ => none
    | _ => none
  | _ => none

/-- Backtracking over the `[^}]*` gap before `"worksheet"`: positions are
tried right-to-left (the greedy preference of `[^}]*`), never crossing a
`}`.  Returns the input remaining after a successful full match. -/
def tryKey : List Char → Option (List Char)
  | [] => none
  | c :: rest =>
    if c = '}' then none
    else
      match tryKey rest with
      | some r => some r
      | none =>
        if startsWithL pWorksheet (c :: rest) then afterKey ((c :: rest).drop 11)
        else none

/-- Attempt the strategy-1 regex anchored at the head of `s` (the pattern
must begin with `{`); returns the matched substring. -/
def matchAt : List Char → Option (List Char)
  | [] => none
  | c :: rest =>
    if c = '{' then
      match tryKey rest with
      | some rem =>
        some ((c :: rest).take ((c :: rest).length - rem.length))
      | none => none
    else none

/-- Python `re.search` of the strategy-1 pattern: try each start position from the
left, returning the first (leftmost) match. -/
def search1 : List Char → Option (List Char)
  | [] => none
  | c :: rest =>
    match matchAt (c :: rest) with
    | some m => some m
    | none => search1 rest

/-- Index of the first occurrence of a character. -/
def firstIdxOf (c : Char) : List Char → Option Nat
  | [] => none
  | x :: rest => if x = c then some 0 else (firstIdxOf c rest).map (· + 1)

/-- Index of the last occurrence of a character. -/
def lastIdxOf (c : Char) (s : List Char) : Option Nat :=
  (firstIdxOf c s.reverse).map (fun k => s.length - 1 - k)

/-- Strategy 1: `re.search(r'\{[^}]*"worksheet"\s*:\s*\[[^\]]+\][^}]*\}', x)`. -/
def strategy1 (raw : List Char) : Option (List Char) := search1 raw

/-- Strategy 2: `re.search(r'\{.*\}', x, re.DOTALL)` — with the dot-all
greedy quantifier this matches from the first `{` to the last `}`,
provided some `}` follows the first `{`. -/
def strategy2 (raw : List Char) : Option (List Char) :=
  match firstIdxOf '{' raw, lastIdxOf '}' raw with
  | some i, some j => if i < j then some ((raw.drop i).take (j + 1 - i)) else none
  | _, _ => none

/-- Python `str.find`: index of the first occurrence or `-1`. -/
def pyFind (s : List Char) (c : Char) : Int :=
  match firstIdxOf c s with
  | some i => (i : Int)
  | none => -1

/-- Python `str.rfind`: index of the last occurrence or `-1`. -/
def pyRFind (s : List Char) (c : Char) : Int :=
  match lastIdxOf c s with
  | some i => (i : Int)
  | none => -1

/-- Clamp one slice bound the way Python does: negative indices count from
the end, then the result is clamped into `[0, len]`. -/
def clampIdx (len : Nat) (i : Int) : Nat :=
  if i < 0 then (if i + len < 0 then 0 else (i + len).toNat)
  else min i.toNat len

/-- Python slice `s[a:b]` (step 1). -/
def pySlice (s : List Char) (a b : Int) : List Char :=
  let st := clampIdx s.length a
  let en := clampIdx s.length b
  (s.drop st).take (en - st)

/-- Strategy 3: the literal slice `x[x.find('{'):x.rfind('}')+1]`, with
Python's `-1`-on-absence and negative-index slice semantics.  An empty
slice is falsy in the `if match:` test, hence `none`. -/
def strategy3 (raw : List Char) : Option (List Char) :=
  let sl := pySlice raw (pyFind raw '{') (pyRFind raw '}' + 1)
  if sl.isEmpty then none else some sl

/-- Run the cleanup, parse and structural validation on one extracted
candidate; `none` models the caught `JSONDecodeError`/`TypeError` or a
failed validation, which disqualifies only this strategy. -/
def processCandidate (cand : List Char) : Option (List Char) :=
  let cleaned := cleanCandidate cand
  match json_loads cleaned with
  | none => none
  | some j => if validateWorksheet j then some cleaned else none

/-- One strategy of the loop: extract a candidate (a falsy/`None` result
skips the strategy), then clean-parse-validate it. -/
def runStrat (st : List Char → Option (List Char)) (raw : List Char) :
    Option (List Char) :=
  match st raw with
  | some cand => processCandidate cand
  | none => none

/-- The strategy loop of `clean_json_content`: first strategy whose
candidate cleans, parses and validates wins; any failure moves on to the
next strategy. -/
def tryStrategies : List (List Char → Option (List Char)) → List Char →
    Option (List Char)
  | [], _ => none
  | st :: rest, raw =>
    match runStrat st raw with
    | some cleaned => some cleaned
    | none => tryStrategies rest raw

/-- The function `clean_json_content(raw_content)`: try the three extraction strategies
in order and return the first cleaned candidate that parses and validates;
`none` models the final `raise ValueError` (always caught by the caller). -/
def clean_json_content (raw : List Char) : Option (List Char) :=
  tryStrategies [strategy1, strategy2, strategy3] raw

/-- The `worksheet_data["worksheet"]` access performed by `response` after
re-parsing the cleaned string; `none` models a caught `KeyError` or
`TypeError` on a non-dict. -/
def worksheetField : Json → Option Json
  | Json.obj members => lookupLast (strL "worksheet") members
  | _ => none

/-- One attempt of `response` after the model reply arrives: clean the raw
reply, re-parse the cleaned string and extract the `worksheet` value.
This is the spec's `normalize`; `none` is `ExtractionFailure`. -/
def normalize (raw : List Char) : Option Json :=
  match clean_json_content raw with
  | none => none
  | some cleaned =>
    match json_loads cleaned with
    | none => none
    | some j => worksheetField j

/-- The retry loop of `response`, starting at attempt `i` with `k` attempts
remaining: calls the model once per attempt (the reply of attempt `n` is
`replies n`), returns on the first successfully normalized reply, and
counts the model calls issued. -/
def responseFrom (replies : Nat → List Char) : Nat → Nat → Option Json × Nat
  | _, 0 => (none, 0)
  | i, k + 1 =>
    match normalize (replies i) with
    | some v => (some v, 1)
    | none =>
      let r := responseFrom replies (i + 1) k
      (r.1, r.2 + 1)

/-- The function `response(prompt_text, max_retries)`: the orchestrator.  The external
model call is abstracted as the reply sequence `replies`; the result is
the returned value (`none` is the bare `return None` after exhaustion)
paired with the number of model calls issued. -/
def response (replies : Nat → List Char) (max_retries : Nat) :
    Option Json × Nat :=
  responseFrom replies 0 max_retries

/-- One row of the `worksheets` table: `id` (PRIMARY KEY), `subject`,
`topic`, `worksheet_content` (a JSON-encoded string), `created_at`
(abstracted to a number), `user_id` (nullable). -/
structure WorksheetRow where
  id : List Char
  subject : List Char
  topic : List Char
  worksheet_content : List Char
  created_at : Nat
  user_id : Option (List Char)
deriving DecidableEq, Repr

/-- The table state: rows in insertion order (SQLite rowid order, which is
the order `fetchone` on an unordered `SELECT` observes). -/
abbrev DBState := List WorksheetRow

/-- First row with the given id, as `SELECT * FROM worksheets WHERE id = ?`
followed by `fetchone()`. -/
def findRow (db : DBState) (wid : List Char) : Option WorksheetRow :=
  db.find? (fun r => r.id == wid)

/-- The method `WorksheetDatabase.save_worksheet`: INSERT a new row whose content is
`json.dumps(worksheet_content)` for a list of strings.  The generated
`uuid4` id and `datetime.now()` timestamp are explicit arguments. -/
def save_worksheet (db : DBState) (worksheet_id : List Char) (created_at : Nat)
    (subject topic : List Char) (worksheet_content : List (List Char))
    (user_id : Option (List Char)) : DBState :=
  db ++ [{ id := worksheet_id, subject := subject, topic := topic,
           worksheet_content := json_dumps_strings worksheet_content,
           created_at := created_at, user_id := user_id }]

/-- Result of `WorksheetDatabase.get_worksheet_by_id`: `notFound` models
`return None`; `decodeError` models an uncaught `json.loads` exception on
a corrupt stored string; `found` carries the returned dictionary with the
JSON-decoded `worksheet_content`. -/
inductive GetOutcome where
  | notFound : GetOutcome
  | decodeError : GetOutcome
  | found (id : List Char) (subject : List Char) (topic : List Char)
      (worksheet_content : Json) (created_at : Nat)
      (user_id : Option (List Char)) : GetOutcome

/-- The method `WorksheetDatabase.get_worksheet_by_id`: fetch the row, return `None`
when absent, otherwise the unpacked dictionary with
`json.loads(worksheet_content)`. -/
def get_worksheet_by_id (db : DBState) (worksheet_id : List Char) : GetOutcome :=
  match findRow db worksheet_id with
  | none => GetOutcome.notFound
  | some r =>
    match json_loads r.worksheet_content with
    | none => GetOutcome.decodeError
    | some j =>
      GetOutcome.found r.id r.subject r.topic j r.created_at r.user_id

/-- The function `save_worksheet_changes` (src/main.py lines 384-404): an in-place
`UPDATE worksheets SET worksheet_content = ? WHERE id = ?` with the
re-encoded edited list. -/
def save_worksheet_changes (db : DBState) (worksheet_id : List Char)
    (edited_worksheet : List (List Char)) : DBState :=
  db.map (fun r =>
    if r.id = worksheet_id then
      { r with worksheet_content := json_dumps_strings edited_worksheet }
    else r)

/-- The save path of `edit_worksheet` (the form submit): INSERT a fresh row
under a new uuid with topic `"Edited Version of {worksheet_id}"`, leaving
the original row untouched; the INSERT names no `user_id` column, so it is
NULL. -/
def edit_worksheet (db : DBState) (new_worksheet_id : List Char)
    (subject : List Char) (worksheet_id : List Char)
    (edited_worksheet : List (List Char)) (created_at : Nat) : DBState :=
  db ++ [{ id := new_worksheet_id, subject := subject,
           topic := strL "Edited Version of " ++ worksheet_id,
           worksheet_content := json_dumps_strings edited_worksheet,
           created_at := created_at, user_id := none }]

/-- Concrete raw replies used as witnesses and counterexamples below. -/
def scenarioA : List Char :=
  strL "\x7b\"worksheet\":[\"T\",\"Q1\",\"Q2\",\"Q3\",\"Q4\",\"Q5\",\"MC1\",\"MC2\",\"Cloze\"]\x7d"

/-- The nine items of `scenarioA`. -/
def scenarioAItems : List (List Char) :=
  [strL "T", strL "Q1", strL "Q2", strL "Q3", strL "Q4", strL "Q5",
   strL "MC1", strL "MC2", strL "Cloze"]

/-- A well-formed reply whose first element contains a comma-space-brace
sequence, which the candidate cleanup rewrites inside the string value. -/
def commaBraceRaw : List Char :=
  strL "\x7b\"worksheet\":[\"a, \x7d\",\"b2\",\"c3\",\"d4\",\"e5\",\"f6\",\"g7\",\"h8\",\"i9\"]\x7d"

/-- The nine items actually contained in `commaBraceRaw`. -/
def commaBraceItems : List (List Char) :=
  [strL "a, \x7d", strL "b2", strL "c3", strL "d4", strL "e5", strL "f6",
   strL "g7", strL "h8", strL "i9"]

/-- The altered items that `normalize` returns for `commaBraceRaw`. -/
def commaBraceItemsAltered : List (List Char) :=
  [strL "a\x7d", strL "b2", strL "c3", strL "d4", strL "e5", strL "f6",
   strL "g7", strL "h8", strL "i9"]

/-- Scenario B of the spec: a fenced object with a trailing comma before
the closing bracket. -/
def scenarioB : List Char :=
  strL "```json\n\x7b\"worksheet\": [\"T\",\"Q1\",\"Q2\",\"Q3\",\"Q4\",\"Q5\",\"MC1\",\"MC2\",\"Cloze\", ]\x7d\n```"

/-- A fenced object with a trailing comma directly before the closing
brace (the one comma position the cleanup does remove). -/
def fencedCommaBrace : List Char :=
  strL "```json\n\x7b\"worksheet\": [\"T\",\"Q1\",\"Q2\",\"Q3\",\"Q4\",\"Q5\",\"MC1\",\"MC2\",\"Cloze\"], \x7d\n```"

/-- The unfenced, comma-free version of `fencedCommaBrace`. -/
def unfencedCommaFree : List Char :=
  strL "\x7b\"worksheet\": [\"T\",\"Q1\",\"Q2\",\"Q3\",\"Q4\",\"Q5\",\"MC1\",\"MC2\",\"Cloze\"]\x7d"

/-- Scenario C of the spec: numbers instead of strings, wrapped in prose. -/
def scenarioC : List Char :=
  strL "Sure! Here is your worksheet: \x7b\"worksheet\": [1,2,3,4,5,6,7,8,9]\x7d"

/-- Scenario D of the spec: plain prose without braces. -/
def scenarioD : List Char :=
  strL "I could not produce a worksheet this time. Please try again."

/-- A reply on which strategy 1 matches a substring that cuts through a
string literal (its candidate fails to parse), while strategy 2 recovers
the whole object. -/
def strat1CutRaw : List Char :=
  strL "\x7b\"worksheet\":[\"a]b\",\"c\x7dd\",\"e3\",\"e4\",\"e5\",\"e6\",\"e7\",\"e8\",\"e9\"]\x7d"

/-- The substring strategy 1 extracts from `strat1CutRaw`. -/
def strat1CutCand : List Char := strL "\x7b\"worksheet\":[\"a]b\",\"c\x7d"

/-- The nine items of `strat1CutRaw`. -/
def strat1CutItems : List (List Char) :=
  [strL "a]b", strL "c\x7dd", strL "e3", strL "e4", strL "e5", strL "e6",
   strL "e7", strL "e8", strL "e9"]

/-- A reply sequence whose every element fails extraction. -/
def failReplies : Nat → List Char :=
  fun _ => strL "The model returned no structured reply at all."

/-- A reply sequence whose first attempt fails to extract and whose later
attempts return Scenario A. -/
def mixedReplies : Nat → List Char
  | 0 => strL "no structured output in this reply"
  | _ + 1 => scenarioA

/-- A concrete stored row and single-row table used in witnesses below. -/
def row0 : WorksheetRow :=
  { id := strL "w1", subject := strL "Math", topic := strL "Algebra",
    worksheet_content := json_dumps_strings [strL "old"],
    created_at := 0, user_id := none }

/-- A one-row table state. -/
def db0 : DBState := [row0]

/-- A successful extraction yields a cleaned string that parses and passes
the structural validation. -/
theorem runStrat_sound {st : List Char → Option (List Char)} {raw c : List Char}
    (h : runStrat st raw = some c) :
    ∃ j, json_loads c = some j ∧ validateWorksheet j = true := by
  cases hst : st raw with
  | none => simp [runStrat, hst] at h
  | some cand =>
    cases hp : json_loads (cleanCandidate cand) with
    | none => simp [runStrat, processCandidate, hst, hp] at h
    | some j =>
      by_cases hv : validateWorksheet j = true
      · have hc : cleanCandidate cand = c := by
          simp [runStrat, processCandidate, hst, hp, hv] at h
          exact h
        subst hc
        exact ⟨j, hp, hv⟩
      · simp [runStrat, processCandidate, hst, hp, hv] at h

/-- The strategy loop only returns candidates that parse and validate. -/
theorem tryStrategies_sound {raw c : List Char} :
    ∀ {strats : List (List Char → Option (List Char))},
    tryStrategies strats raw = some c →
    ∃ j, json_loads c = some j ∧ validateWorksheet j = true := by
  intro strats
  induction strats with
  | nil => intro h; cases h
  | cons st rest ih =>
    intro h
    cases hr : runStrat st raw with
    | some cleaned =>
      have hc : cleaned = c := by
        simp [tryStrategies, hr] at h
        exact h
      subst hc
      exact runStrat_sound hr
    | none =>
      have h2 : tryStrategies rest raw = some c := by
        simpa [tryStrategies, hr] using h
      exact ih h2

/-- Unpacking of the structural validation. -/
theorem validate_spec {j : Json} (h : validateWorksheet j = true) :
    ∃ members items, j = Json.obj members ∧
      lookupLast (strL "worksheet") members = some (Json.arr items) ∧
      items.length = 9 ∧
      ∀ it ∈ items, ∃ s, it = Json.str s ∧ (pyStrip s).isEmpty = false := by
  cases j with
  | obj members =>
    cases hl : lookupLast (strL "worksheet") members with
    | none => simp [validateWorksheet, hl] at h
    | some v =>
      cases v with
      | arr items =>
        simp only [validateWorksheet, hl, Bool.and_eq_true, beq_iff_eq,
          List.all_eq_true] at h
        obtain ⟨hlen, hall⟩ := h
        refine ⟨members, items, rfl, hl, hlen, ?_⟩
        intro it hit
        have hx := hall it hit
        cases it with
        | str s =>
          refine ⟨s, rfl, ?_⟩
          simpa using hx
        | null => simp at hx
        | bool b => simp at hx
        | num lx => simp at hx
        | arr xs => simp at hx
        | obj ms => simp at hx
      | null => simp [validateWorksheet, hl] at h
      | bool b => simp [validateWorksheet, hl] at h
      | num lx => simp [validateWorksheet, hl] at h
      | str s => simp [validateWorksheet, hl] at h
      | obj ms => simp [validateWorksheet, hl] at h
  | null => simp [validateWorksheet] at h
  | bool b => simp [validateWorksheet] at h
  | num lx => simp [validateWorksheet] at h
  | str s => simp [validateWorksheet] at h
  | arr items => simp [validateWorksheet] at h

/-- What `normalize` returns on success: exactly the validated nine-string
`worksheet` array of the cleaned candidate. -/
theorem normalize_sound {raw : List Char} {v : Json}
    (h : normalize raw = some v) :
    ∃ items, v = Json.arr items ∧ items.length = 9 ∧
      ∀ it ∈ items, ∃ s, it = Json.str s ∧ (pyStrip s).isEmpty = false := by
  cases hc : clean_json_content raw with
  | none => simp [normalize, hc] at h
  | some cleaned =>
    obtain ⟨j, hp, hv⟩ := tryStrategies_sound hc
    obtain ⟨members, items, hobj, hl, hlen, hall⟩ := validate_spec hv
    subst hobj
    have hwf : worksheetField (Json.obj members) = some v := by
      simpa [normalize, hc, hp] using h
    have hv2 : Json.arr items = v := by
      simpa [worksheetField, hl] using hwf
    exact ⟨items, hv2.symm, hlen, hall⟩

/-- Claim C2: for every raw reply, `normalize` never returns a `worksheet`
record whose length differs from 9 or that contains an empty,
whitespace-only or non-string element; in particular Scenario C (numbers
1..9 instead of strings) yields `ExtractionFailure`. -/
theorem c2_invalid_worksheet_rejected :
    (∀ raw v, normalize raw = some v →
      ∃ items, v = Json.arr items ∧ items.length = 9 ∧
        ∀ it ∈ items, ∃ s, it = Json.str s ∧ (pyStrip s).isEmpty = false) ∧
    normalize scenarioC = none :=
  ⟨fun _ _ h => normalize_sound h, by rfl⟩

/-- Witness for C2 at a concrete successfully normalized reply. -/
theorem c2_witness :
    ∃ items, Json.arr (scenarioAItems.map Json.str) = Json.arr items ∧
      items.length = 9 ∧
      ∀ it ∈ items, ∃ s, it = Json.str s ∧ (pyStrip s).isEmpty = false :=
  c2_invalid_worksheet_rejected.1 scenarioA
    (Json.arr (scenarioAItems.map Json.str)) (by rfl)

/-- Claim C9: every non-exceptional return of `clean_json_content` is a
string that `json_loads` parses into a validated nine-string worksheet
object, so the second parse performed by `response` cannot fail. -/
theorem c9_clean_result_parses :
    ∀ raw c, clean_json_content raw = some c →
      (∃ j, json_loads c = some j ∧ validateWorksheet j = true) ∧
      ∃ items, normalize raw = some (Json.arr items) ∧ items.length = 9 ∧
        ∀ it ∈ items, ∃ s, it = Json.str s ∧ (pyStrip s).isEmpty = false := by
  intro raw c hc
  refine ⟨tryStrategies_sound hc, ?_⟩
  obtain ⟨j, hp, hv⟩ := tryStrategies_sound hc
  obtain ⟨members, items, hobj, hl, hlen, hall⟩ := validate_spec hv
  subst hobj
  refine ⟨items, ?_, hlen, hall⟩
  simp [normalize, hc, hp, worksheetField, hl]

/-- Witness for C9 at a concrete reply accepted by the cleaner. -/
theorem c9_witness :
    (∃ j, json_loads unfencedCommaFree = some j ∧ validateWorksheet j = true) ∧
    ∃ items, normalize unfencedCommaFree = some (Json.arr items) ∧
      items.length = 9 ∧
      ∀ it ∈ items, ∃ s, it = Json.str s ∧ (pyStrip s).isEmpty = false :=
  c9_clean_result_parses unfencedCommaFree unfencedCommaFree (by rfl)

/-- Strategy 1 cannot match a string without an opening brace. -/
theorem search1_none {s : List Char} (h : '{' ∉ s) : search1 s = none := by
  induction s with
  | nil => rfl
  | cons c rest ih =>
    have hc : ¬(c = '{') := fun he => h (by simp [he])
    have hrest : '{' ∉ rest := fun hm => h (List.mem_cons_of_mem _ hm)
    simp [search1, matchAt, hc, ih hrest]

/-- The search `firstIdxOf` misses exactly the absent characters. -/
theorem firstIdxOf_none {c : Char} {s : List Char} (h : c ∉ s) :
    firstIdxOf c s = none := by
  induction s with
  | nil => rfl
  | cons x rest ih =>
    have hx : ¬(x = c) := fun he => h (by simp [he])
    have hrest : c ∉ rest := fun hm => h (List.mem_cons_of_mem _ hm)
    simp [firstIdxOf, hx, ih hrest]

/-- The `s[-1:0]` slice that strategy 3 produces on a braceless input is
empty. -/
theorem pySlice_neg_one_zero (s : List Char) : pySlice s (-1) 0 = [] := by
  simp [pySlice, clampIdx]

/-- Claim C5: on any input without braces all three extraction strategies
fail, `clean_json_content` reports failure (the raised `ValueError`, which
`response` catches) and `normalize` returns the typed
`ExtractionFailure` outcome rather than propagating an exception. -/
theorem c5_no_braces_typed_failure :
    ∀ raw, '{' ∉ raw → '}' ∉ raw →
      clean_json_content raw = none ∧ normalize raw = none := by
  intro raw h1 h2
  have hs1 : strategy1 raw = none := search1_none h1
  have hs2 : strategy2 raw = none := by
    simp [strategy2, firstIdxOf_none h1]
  have hs3 : strategy3 raw = none := by
    have hf : pyFind raw '{' = -1 := by simp [pyFind, firstIdxOf_none h1]
    have hrev : '}' ∉ raw.reverse := by simpa using h2
    have hr : pyRFind raw '}' = -1 := by
      simp [pyRFind, lastIdxOf, firstIdxOf_none hrev]
    have : pyRFind raw '}' + 1 = 0 := by rw [hr]; decide
    simp [strategy3, hf, this, pySlice_neg_one_zero]
  have hclean : clean_json_content raw = none := by
    simp [clean_json_content, tryStrategies, runStrat, hs1, hs2, hs3]
  exact ⟨hclean, by simp [normalize, hclean]⟩

/-- Witness for C5 at Scenario D (plain prose, no braces). -/
theorem c5_witness :
    clean_json_content scenarioD = none ∧ normalize scenarioD = none :=
  c5_no_braces_typed_failure scenarioD (by decide) (by decide)

/-- The retry loop never issues more calls than it has attempts left. -/
theorem responseFrom_calls_le (replies : Nat → List Char) :
    ∀ k i, (responseFrom replies i k).2 ≤ k := by
  intro k
  induction k with
  | zero => intro i; simp [responseFrom]
  | succ k ih =>
    intro i
    cases hn : normalize (replies i) with
    | some v => simp [responseFrom, hn]
    | none =>
      have := ih (i + 1)
      simp [responseFrom, hn]
      omega

/-- The retry loop on uniformly failing attempts exhausts all of them. -/
theorem responseFrom_all_fail (replies : Nat → List Char) :
    ∀ k i, (∀ j, j < k → normalize (replies (i + j)) = none) →
      responseFrom replies i k = (none, k) := by
  intro k
  induction k with
  | zero => intro i _; rfl
  | succ k ih =>
    intro i h
    have h0 : normalize (replies i) = none := by
      have := h 0 (by omega)
      simpa using this
    have hrest : ∀ j, j < k → normalize (replies (i + 1 + j)) = none := by
      intro j hj
      have := h (j + 1) (by omega)
      rwa [show i + (j + 1) = i + 1 + j by omega] at this
    simp [responseFrom, h0, ih (i + 1) hrest]

/-- The retry loop short-circuits at the first normalizable reply: if the
attempts before relative index `k` all fail and attempt `k` succeeds, the
loop stops there, having made exactly `k + 1` calls. -/
theorem responseFrom_first_success (replies : Nat → List Char) :
    ∀ k i m v, k < m →
      (∀ j, j < k → normalize (replies (i + j)) = none) →
      normalize (replies (i + k)) = some v →
      responseFrom replies i m = (some v, k + 1) := by
  intro k
  induction k with
  | zero =>
    intro i m v hm hfail hs
    cases m with
    | zero => omega
    | succ m =>
      have hs0 : normalize (replies i) = some v := by simpa using hs
      simp [responseFrom, hs0]
  | succ k ih =>
    intro i m v hm hfail hs
    cases m with
    | zero => omega
    | succ m =>
      have h0 : normalize (replies i) = none := by
        have := hfail 0 (by omega)
        simpa using this
      have hrest : ∀ j, j < k → normalize (replies (i + 1 + j)) = none := by
        intro j hj
        have := hfail (j + 1) (by omega)
        rwa [show i + (j + 1) = i + 1 + j by omega] at this
      have hs1 : normalize (replies (i + 1 + k)) = some v := by
        rwa [show i + (k + 1) = i + 1 + k by omega] at hs
      simp [responseFrom, h0, ih (i + 1) m v (by omega) hrest hs1]

/-- Claim C6: the orchestrator issues at most `max_retries` model calls;
whenever the first successful attempt is attempt `k` (every earlier
attempt failed and attempt `k` normalizes), it returns that record
immediately after exactly `k + 1` calls, issuing no further calls; and
three uniformly failing attempts with `max_retries = 3` return failure
after exactly 3 calls (Scenario E). -/
theorem c6_retry_bounds :
    (∀ replies max_retries, (response replies max_retries).2 ≤ max_retries) ∧
    (∀ replies max_retries k v, k < max_retries →
      (∀ i, i < k → normalize (replies i) = none) →
      normalize (replies k) = some v →
      response replies max_retries = (some v, k + 1)) ∧
    (∀ replies, (∀ i, i < 3 → normalize (replies i) = none) →
      response replies 3 = (none, 3)) := by
  refine ⟨fun replies m => responseFrom_calls_le replies m 0, ?_, ?_⟩
  · intro replies m k v hk hfail hs
    have := responseFrom_first_success replies k 0 m v hk
      (fun j hj => by simpa using hfail j hj) (by simpa using hs)
    simpa [response] using this
  · intro replies h
    have := responseFrom_all_fail replies 3 0 (fun j hj => by simpa using h j hj)
    simpa [response] using this

/-- Witness for C6: the call bound, a run whose first success is the
second attempt (one failure, then Scenario A) stopping after exactly two
calls, and a uniformly failing run exhausting all three. -/
theorem c6_witness :
    (response mixedReplies 3).2 ≤ 3 ∧
    response mixedReplies 3 =
      (some (Json.arr (scenarioAItems.map Json.str)), 2) ∧
    response failReplies 3 = (none, 3) :=
  ⟨c6_retry_bounds.1 mixedReplies 3,
   c6_retry_bounds.2.1 mixedReplies 3 1
     (Json.arr (scenarioAItems.map Json.str)) (by omega)
     (fun i hi => by
       have h0 : i = 0 := by omega
       subst h0
       rfl)
     (by rfl),
   c6_retry_bounds.2.2 failReplies (fun i _ => by rfl)⟩

/-- Counterexample to claim C7: the value `response` returns to its caller
on exhaustion is the bare `None` — identical for 1 exhausted attempt and
for 3 exhausted attempts — so it cannot carry the count of attempts made;
only the instrumented call counter distinguishes the two runs. -/
theorem c7_counterexample :
    (response failReplies 1).1 = none ∧
    (response failReplies 3).1 = none ∧
    (response failReplies 1).2 = 1 ∧
    (response failReplies 3).2 = 3 ∧
    (response failReplies 1).1 = (response failReplies 3).1 ∧
    (response failReplies 1).2 ≠ (response failReplies 3).2 :=
  ⟨rfl, rfl, rfl, rfl, rfl, by decide⟩

/-- Claim C7 as amended: when retries are exhausted without success the
orchestrator returns the typed empty outcome `None` to the caller — it
does not raise — after issuing exactly `max_retries` model calls; the
attempt count is not part of the returned value. -/
theorem c7_exhaustion_returns_none :
    ∀ replies max_retries,
      (∀ i, i < max_retries → normalize (replies i) = none) →
      response replies max_retries = (none, max_retries) := by
  intro replies m h
  have := responseFrom_all_fail replies m 0 (fun j hj => by simpa using h j hj)
  simpa [response] using this

/-- Witness for the amended C7 at a concrete failing run. -/
theorem c7_witness : response failReplies 2 = (none, 2) :=
  c7_exhaustion_returns_none failReplies 2 (fun i _ => by rfl)

/-- Claim C4: the strategies run in their fixed order with the first
cleanly validating candidate winning: a validated strategy-1 candidate is
returned outright; when strategy 1 yields nothing usable the loop moves to
strategy 2, then to strategy 3; and concretely (`strat1CutRaw`) a
strategy-1 candidate whose parse fails disqualifies only strategy 1,
after which strategy 2 succeeds. -/
theorem c4_ordered_strategies :
    (∀ raw c, runStrat strategy1 raw = some c →
      clean_json_content raw = some c) ∧
    (∀ raw c, runStrat strategy1 raw = none →
      runStrat strategy2 raw = some c → clean_json_content raw = some c) ∧
    (∀ raw, runStrat strategy1 raw = none → runStrat strategy2 raw = none →
      clean_json_content raw = runStrat strategy3 raw) ∧
    (strategy1 strat1CutRaw = some strat1CutCand ∧
      runStrat strategy1 strat1CutRaw = none ∧
      normalize strat1CutRaw =
        some (Json.arr (strat1CutItems.map Json.str))) := by
  refine ⟨?_, ?_, ?_, by rfl, by rfl, by rfl⟩
  · intro raw c h
    simp [clean_json_content, tryStrategies, h]
  · intro raw c h1 h2
    simp [clean_json_content, tryStrategies, h1, h2]
  · intro raw h1 h2
    simp only [clean_json_content, tryStrategies, h1, h2]
    cases h3 : runStrat strategy3 raw <;> simp [h3]

/-- Witness for C4: the fall-through conjunct applied to the concrete
reply on which strategy 1 extracts an unparseable candidate. -/
theorem c4_witness : clean_json_content strat1CutRaw = some strat1CutRaw :=
  c4_ordered_strategies.2.1 strat1CutRaw strat1CutRaw (by rfl) (by rfl)

/-- Mapping `Json.str` over distinct string lists yields distinct items. -/
theorem json_str_map_inj :
    ∀ xs ys : List (List Char), xs.map Json.str = ys.map Json.str → xs = ys := by
  intro xs
  induction xs with
  | nil => intro ys h; cases ys with
    | nil => rfl
    | cons y ys => simp at h
  | cons x xs ih =>
    intro ys h
    cases ys with
    | nil => simp at h
    | cons y ys =>
      simp only [List.map_cons, List.cons.injEq] at h
      have hx : x = y := Json.str.inj h.1
      rw [hx, ih ys h.2]

/-- Counterexample to claim C1: `commaBraceRaw` is exactly a well-formed
JSON object whose `worksheet` array holds 9 non-empty strings, yet
`normalize` returns an array whose first element was rewritten by the
trailing-comma cleanup (`"a, }"` became `"a}"`), not the original array. -/
theorem c1_counterexample :
    json_loads commaBraceRaw =
      some (Json.obj [(strL "worksheet",
        Json.arr (commaBraceItems.map Json.str))]) ∧
    commaBraceItems.length = 9 ∧
    (∀ s ∈ commaBraceItems, (pyStrip s).isEmpty = false) ∧
    normalize commaBraceRaw =
      some (Json.arr (commaBraceItemsAltered.map Json.str)) ∧
    normalize commaBraceRaw ≠
      some (Json.arr (commaBraceItems.map Json.str)) := by
  refine ⟨by rfl, by rfl, by decide, by rfl, ?_⟩
  intro hcontra
  have h1 : normalize commaBraceRaw =
      some (Json.arr (commaBraceItemsAltered.map Json.str)) := by rfl
  rw [h1] at hcontra
  have h2 := Option.some.inj hcontra
  have h3 := Json.arr.inj h2
  have h4 := json_str_map_inj _ _ h3
  have : commaBraceItemsAltered ≠ commaBraceItems := by decide
  exact this h4

/-- Claim C1 as amended: for every raw reply that is exactly a well-formed
JSON object whose `worksheet` key holds an array of 9 strings non-empty
after stripping, provided the targeted strategy-1 regex extracts the
entire reply and the two cleanup substitutions leave the reply unchanged,
`normalize` returns that 9-element array unchanged, element for
element. -/
theorem c1_identity_on_clean_reply :
    ∀ raw (members : List ((List Char) × Json)) (ws : List (List Char)),
      search1 raw = some raw →
      cleanCandidate raw = raw →
      json_loads raw = some (Json.obj members) →
      lookupLast (strL "worksheet") members =
        some (Json.arr (ws.map Json.str)) →
      ws.length = 9 →
      (∀ s ∈ ws, (pyStrip s).isEmpty = false) →
      normalize raw = some (Json.arr (ws.map Json.str)) := by
  intro raw members ws hsearch hclean hparse hkey hlen hne
  have hval : validateWorksheet (Json.obj members) = true := by
    simp only [validateWorksheet, hkey, Bool.and_eq_true, beq_iff_eq,
      List.all_eq_true]
    constructor
    · simpa using hlen
    · intro it hit
      obtain ⟨s, hs, hmem⟩ := List.mem_map.mp hit
      subst hmem
      simpa using hne s hs
  have hcand : clean_json_content raw = some raw := by
    have hrun : runStrat strategy1 raw = some raw := by
      simp [runStrat, strategy1, hsearch, processCandidate, hclean, hparse,
        hval]
    simp [clean_json_content, tryStrategies, hrun]
  simp [normalize, hcand, hparse, worksheetField, hkey]

/-- Witness for the amended C1 at Scenario A. -/
theorem c1_witness :
    normalize scenarioA = some (Json.arr (scenarioAItems.map Json.str)) :=
  c1_identity_on_clean_reply scenarioA
    [(strL "worksheet", Json.arr (scenarioAItems.map Json.str))]
    scenarioAItems (by rfl) (by rfl) (by rfl) (by rfl) (by rfl) (by decide)

/-- Counterexample to claim C3: the code performs no fence-stripping and
no LaTeX-sequence removal, and the only comma cleanup is `,\s*}`; on
Scenario B — a fenced object with a trailing comma before the closing
bracket — every strategy's candidate keeps the `", ]"` and fails to
parse, so `normalize` reports extraction failure instead of returning the
nine items. -/
theorem c3_counterexample :
    clean_json_content scenarioB = none ∧ normalize scenarioB = none :=
  ⟨by rfl, by rfl⟩

/-- Claim C3 as amended: the cleanup applied to each candidate consists
only of removing a comma (with optional whitespace) immediately before a
closing brace, collapsing whitespace between an opening brace and a
quote, and trimming — there is no fence or LaTeX stripping, although a
fence outside the outermost braces is discarded by extraction itself.
For a fenced object whose trailing comma sits immediately before the
closing brace, `normalize` strips the fence (by extraction) and the comma
(by cleanup) and returns the same 9 items as the unwrapped comma-free
version; the two unit conjuncts show each substitution acting. -/
theorem c3_cleanup_behavior :
    normalize fencedCommaBrace =
      some (Json.arr (scenarioAItems.map Json.str)) ∧
    normalize unfencedCommaFree =
      some (Json.arr (scenarioAItems.map Json.str)) ∧
    subCommaBrace (strL "[1], \x7d") = strL "[1]\x7d" ∧
    subBraceQuote (strL "\x7b  \"k\"") = strL "\x7b\"k\"" :=
  ⟨by rfl, by rfl, by rfl, by rfl⟩

/-- Counterexample to claim C8: `save_worksheet_changes` performs an
in-place `UPDATE` — on a one-row table it changes the stored content of
the existing row, adds no new row and allocates no fresh identifier. -/
theorem c8_counterexample :
    (save_worksheet_changes db0 (strL "w1") [strL "new"]).length =
      db0.length ∧
    findRow (save_worksheet_changes db0 (strL "w1") [strL "new"])
        (strL "w1") ≠ findRow db0 (strL "w1") ∧
    (save_worksheet_changes db0 (strL "w1") [strL "new"]).map
        WorksheetRow.id = db0.map WorksheetRow.id :=
  ⟨rfl, by decide, by decide⟩

/-- Claim C8 as amended: the live edit path (`edit_worksheet`'s form
submit) is append-only — it inserts one new row under a fresh identifier
with topic `"Edited Version of {id}"` and a NULL user, leaving every
existing row's lookup unchanged; however the (uncalled) helper
`save_worksheet_changes` mutates the stored content in place. -/
theorem c8_edit_is_append_only :
    ∀ (db : DBState) (new_id subject wid : List Char)
      (ws : List (List Char)) (t : Nat),
      (∀ r ∈ db, r.id ≠ new_id) →
      (∀ id2, id2 ≠ new_id →
        findRow (edit_worksheet db new_id subject wid ws t) id2 =
          findRow db id2) ∧
      findRow (edit_worksheet db new_id subject wid ws t) new_id =
        some { id := new_id, subject := subject,
               topic := strL "Edited Version of " ++ wid,
               worksheet_content := json_dumps_strings ws,
               created_at := t, user_id := none } ∧
      (edit_worksheet db new_id subject wid ws t).length = db.length + 1 := by
  intro db new_id subject wid ws t hfresh
  refine ⟨?_, ?_, by simp [edit_worksheet]⟩
  · intro id2 hne
    unfold edit_worksheet findRow
    rw [List.find?_append]
    have : List.find? (fun (r : WorksheetRow) => r.id == id2)
        ([{ id := new_id, subject := subject,
            topic := strL "Edited Version of " ++ wid,
            worksheet_content := json_dumps_strings ws,
            created_at := t, user_id := none }] : List WorksheetRow) = none := by
      have hb : (new_id == id2) = false :=
        beq_eq_false_iff_ne.mpr (fun h => hne h.symm)
      simp [List.find?, hb]
    rw [this]
    cases List.find? (fun (r : WorksheetRow) => r.id == id2) db <;> rfl
  · unfold edit_worksheet findRow
    rw [List.find?_append]
    have hdb : List.find? (fun (r : WorksheetRow) => r.id == new_id) db = none := by
      rw [List.find?_eq_none]
      intro r hr
      simpa using hfresh r hr
    rw [hdb]
    simp [List.find?]

/-- Witness for the amended C8 at a concrete one-row table. -/
theorem c8_witness :
    (∀ id2, id2 ≠ strL "w2" →
      findRow (edit_worksheet db0 (strL "w2") (strL "Math") (strL "w1")
        [strL "new"] 5) id2 = findRow db0 id2) ∧
    findRow (edit_worksheet db0 (strL "w2") (strL "Math") (strL "w1")
        [strL "new"] 5) (strL "w2") =
      some { id := strL "w2", subject := strL "Math",
             topic := strL "Edited Version of " ++ strL "w1",
             worksheet_content := json_dumps_strings [strL "new"],
             created_at := 5, user_id := none } ∧
    (edit_worksheet db0 (strL "w2") (strL "Math") (strL "w1")
        [strL "new"] 5).length = db0.length + 1 :=
  c8_edit_is_append_only db0 (strL "w2") (strL "Math") (strL "w1")
    [strL "new"] 5 (by decide)

/-- Splitting the rendered item list into head and separated tail. -/
theorem dumpsStrItems_cons (s : List Char) (ws : List (List Char)) :
    dumpsStrItems (s :: ws) = encodeString s ++ sepItems ws := by
  induction ws generalizing s with
  | nil => simp [dumpsStrItems, sepItems]
  | cons t ws ih => simp [dumpsStrItems, sepItems, ih, encodeString]

/-- Decoding one dumped hex digit. -/
theorem hexVal_hexDigitChar : ∀ d < 16, hexVal (hexDigitChar d) = some d := by
  decide

/-- Decoding a four-digit dumped hex group. -/
theorem hex4Val_hex4 (n : Nat) (h : n < 65536) :
    hex4Val (hexDigitChar (n / 4096 % 16)) (hexDigitChar (n / 256 % 16))
      (hexDigitChar (n / 16 % 16)) (hexDigitChar (n % 16)) = some n := by
  unfold hex4Val
  rw [hexVal_hexDigitChar _ (Nat.mod_lt _ (by omega)),
      hexVal_hexDigitChar _ (Nat.mod_lt _ (by omega)),
      hexVal_hexDigitChar _ (Nat.mod_lt _ (by omega)),
      hexVal_hexDigitChar _ (Nat.mod_lt _ (by omega))]
  have he : n / 4096 % 16 * 4096 + n / 256 % 16 * 256 + n / 16 % 16 * 16 +
      n % 16 = n := by omega
  show some (n / 4096 % 16 * 4096 + n / 256 % 16 * 256 + n / 16 % 16 * 16 +
    n % 16) = some n
  rw [he]

/-- Every Lean character is a valid scalar value below `0x110000`. -/
theorem char_toNat_lt (c : Char) : c.toNat < 0x110000 := by
  have h := c.valid
  unfold UInt32.isValidChar Nat.isValidChar at h
  unfold Char.toNat
  rcases h with h | h
  · omega
  · omega

/-- No Lean character is a surrogate code point. -/
theorem char_not_surrogate (c : Char) : c.toNat < 0xd800 ∨ 0xdfff < c.toNat := by
  have h := c.valid
  unfold UInt32.isValidChar Nat.isValidChar at h
  unfold Char.toNat
  rcases h with h | h
  · left; omega
  · right; omega

/-- Decoder step: closing quote. -/
theorem psb_close (f : Nat) (t : List Char) :
    parseStringBody (f + 1) ('"' :: t) = some ([], t) := rfl

/-- Decoder step: escaped quote. -/
theorem psb_esc_quote (f : Nat) (t : List Char) :
    parseStringBody (f + 1) ('\\' :: '"' :: t) =
      (fun p => ('"' :: p.1, p.2)) <$> parseStringBody f t := rfl

/-- Decoder step: escaped backslash. -/
theorem psb_esc_back (f : Nat) (t : List Char) :
    parseStringBody (f + 1) ('\\' :: '\\' :: t) =
      (fun p => ('\\' :: p.1, p.2)) <$> parseStringBody f t := rfl

/-- Decoder step: escaped backspace. -/
theorem psb_esc_b (f : Nat) (t : List Char) :
    parseStringBody (f + 1) ('\\' :: 'b' :: t) =
      (fun p => ('\x08' :: p.1, p.2)) <$> parseStringBody f t := rfl

/-- Decoder step: escaped tab. -/
theorem psb_esc_t (f : Nat) (t : List Char) :
    parseStringBody (f + 1) ('\\' :: 't' :: t) =
      (fun p => ('\t' :: p.1, p.2)) <$> parseStringBody f t := rfl

/-- Decoder step: escaped newline. -/
theorem psb_esc_n (f : Nat) (t : List Char) :
    parseStringBody (f + 1) ('\\' :: 'n' :: t) =
      (fun p => ('\n' :: p.1, p.2)) <$> parseStringBody f t := rfl

/-- Decoder step: escaped form feed. -/
theorem psb_esc_f (f : Nat) (t : List Char) :
    parseStringBody (f + 1) ('\\' :: 'f' :: t) =
      (fun p => ('\x0c' :: p.1, p.2)) <$> parseStringBody f t := rfl

/-- Decoder step: escaped carriage return. -/
theorem psb_esc_r (f : Nat) (t : List Char) :
    parseStringBody (f + 1) ('\\' :: 'r' :: t) =
      (fun p => ('\x0d' :: p.1, p.2)) <$> parseStringBody f t := rfl

/-- Decoder step: a plain (unescaped, non-control) character. -/
theorem psb_plain (f : Nat) (c : Char) (t : List Char) (h1 : ¬(c = '"'))
    (h2 : ¬(c = '\\')) (h3 : ¬(c.toNat < 0x20)) :
    parseStringBody (f + 1) (c :: t) =
      (fun p => (c :: p.1, p.2)) <$> parseStringBody f t := by
  simp only [parseStringBody]
  rw [if_neg h1, if_neg h2, if_neg h3]

/-- Decoder step: a `\uXXXX` escape with arbitrary digit characters. -/
theorem psb_unicode (f : Nat) (d1 d2 d3 d4 : Char) (t : List Char) :
    parseStringBody (f + 1) ('\\' :: 'u' :: d1 :: d2 :: d3 :: d4 :: t) =
      (match hex4Val d1 d2 d3 d4 with
       | none => none
       | some n =>
         if 0xd800 ≤ n ∧ n ≤ 0xdbff then
           match t with
           | '\\' :: 'u' :: g1 :: g2 :: g3 :: g4 :: r3 =>
             match hex4Val g1 g2 g3 g4 with
             | none => none
             | some m =>
               if 0xdc00 ≤ m ∧ m ≤ 0xdfff then
                 (fun p =>
                   (Char.ofNat
                      (0x10000 + (n - 0xd800) * 0x400 + (m - 0xdc00)) :: p.1,
                    p.2)) <$> parseStringBody f r3
               else none
           | _ => none
         else if 0xdc00 ≤ n ∧ n ≤ 0xdfff then none
         else (fun p => (Char.ofNat n :: p.1, p.2)) <$>
           parseStringBody f t) :=
  rfl

set_option maxHeartbeats 1000000 in
/-- Decoder step: a surrogate-pair escape shape. -/
theorem psb_unicode_pair (f : Nat) (d1 d2 d3 d4 g1 g2 g3 g4 : Char)
    (t : List Char) :
    parseStringBody (f + 1)
      ('\\' :: 'u' :: d1 :: d2 :: d3 :: d4 ::
        '\\' :: 'u' :: g1 :: g2 :: g3 :: g4 :: t) =
      (match hex4Val d1 d2 d3 d4 with
       | none => none
       | some n =>
         if 0xd800 ≤ n ∧ n ≤ 0xdbff then
           match hex4Val g1 g2 g3 g4 with
           | none => none
           | some m =>
             if 0xdc00 ≤ m ∧ m ≤ 0xdfff then
               (fun p =>
                 (Char.ofNat
                    (0x10000 + (n - 0xd800) * 0x400 + (m - 0xdc00)) :: p.1,
                  p.2)) <$> parseStringBody f t
             else none
         else if 0xdc00 ≤ n ∧ n ≤ 0xdfff then none
         else (fun p => (Char.ofNat n :: p.1, p.2)) <$>
           parseStringBody f ('\\' :: 'u' :: g1 :: g2 :: g3 :: g4 :: t)) :=
  rfl

set_option maxHeartbeats 2000000

/-- Each character encodes to at least one output character. -/
theorem encodeChar_len (c : Char) : 1 ≤ (encodeChar c).length := by
  unfold encodeChar
  split_ifs <;> simp [hex4]

set_option maxHeartbeats 200000

/-- Encoding never shortens a string. -/
theorem encodeStrBody_len (s : List Char) :
    s.length ≤ (encodeStrBody s).length := by
  induction s with
  | nil => simp [encodeStrBody]
  | cons c s ih =>
    have : encodeStrBody (c :: s) = encodeChar c ++ encodeStrBody s := rfl
    rw [this]
    simp only [List.length_append, List.length_cons]
    have := encodeChar_len c
    omega

/-- A quoted encoded string is at least two characters longer than its
source. -/
theorem encodeString_len (s : List Char) :
    s.length + 2 ≤ (encodeString s).length := by
  simp only [encodeString, List.length_cons, List.length_append,
    List.length_singleton]
  have := encodeStrBody_len s
  omega

/-- String round trip: with fuel exceeding the source length, the strict
decoder inverts the `ensure_ascii` encoder on every character sequence. -/
theorem parseStringBody_encode :
    ∀ (s : List Char) (f : Nat) (rest : List Char), s.length < f →
      parseStringBody f (encodeStrBody s ++ '"' :: rest) = some (s, rest) := by
  intro s
  induction s with
  | nil =>
    intro f rest hf
    cases f with
    | zero => omega
    | succ f => exact psb_close f rest
  | cons c s ih =>
    intro f rest hf
    cases f with
    | zero => omega
    | succ f =>
    have hf' : s.length < f := by
      simp only [List.length_cons] at hf
      omega
    have hbody : encodeStrBody (c :: s) ++ '"' :: rest =
        encodeChar c ++ (encodeStrBody s ++ '"' :: rest) := by
      show (encodeChar c ++ encodeStrBody s) ++ '"' :: rest = _
      rw [List.append_assoc]
    rw [hbody]
    by_cases h1 : c = '"'
    · subst h1
      rw [show encodeChar '"' = ['\\', '"'] from rfl]
      simp only [List.cons_append, List.nil_append]
      rw [psb_esc_quote, ih f rest hf']
      rfl
    by_cases h2 : c = '\\'
    · subst h2
      rw [show encodeChar '\\' = ['\\', '\\'] from rfl]
      simp only [List.cons_append, List.nil_append]
      rw [psb_esc_back, ih f rest hf']
      rfl
    by_cases h3 : c = '\x08'
    · subst h3
      rw [show encodeChar '\x08' = ['\\', 'b'] from rfl]
      simp only [List.cons_append, List.nil_append]
      rw [psb_esc_b, ih f rest hf']
      rfl
    by_cases h4 : c = '\t'
    · subst h4
      rw [show encodeChar '\t' = ['\\', 't'] from rfl]
      simp only [List.cons_append, List.nil_append]
      rw [psb_esc_t, ih f rest hf']
      rfl
    by_cases h5 : c = '\n'
    · subst h5
      rw [show encodeChar '\n' = ['\\', 'n'] from rfl]
      simp only [List.cons_append, List.nil_append]
      rw [psb_esc_n, ih f rest hf']
      rfl
    by_cases h6 : c = '\x0c'
    · subst h6
      rw [show encodeChar '\x0c' = ['\\', 'f'] from rfl]
      simp only [List.cons_append, List.nil_append]
      rw [psb_esc_f, ih f rest hf']
      rfl
    by_cases h7 : c = '\x0d'
    · subst h7
      rw [show encodeChar '\x0d' = ['\\', 'r'] from rfl]
      simp only [List.cons_append, List.nil_append]
      rw [psb_esc_r, ih f rest hf']
      rfl
    by_cases h8 : c.toNat < 0x20
    · have henc : encodeChar c = '\\' :: 'u' :: hex4 c.toNat := by
        unfold encodeChar
        rw [if_neg h1, if_neg h2, if_neg h3, if_neg h4, if_neg h5, if_neg h6,
          if_neg h7, if_pos h8]
      rw [henc]
      simp only [hex4, List.cons_append, List.nil_append]
      rw [psb_unicode, hex4Val_hex4 c.toNat (by omega)]
      have hns1 : ¬(0xd800 ≤ c.toNat ∧ c.toNat ≤ 0xdbff) := by omega
      have hns2 : ¬(0xdc00 ≤ c.toNat ∧ c.toNat ≤ 0xdfff) := by omega
      dsimp only
      rw [if_neg hns1, if_neg hns2, ih f rest hf']
      simp [Char.ofNat_toNat]
    by_cases h9 : c.toNat < 0x7f
    · have henc : encodeChar c = [c] := by
        unfold encodeChar
        rw [if_neg h1, if_neg h2, if_neg h3, if_neg h4, if_neg h5, if_neg h6,
          if_neg h7, if_neg h8, if_pos h9]
      rw [henc]
      simp only [List.cons_append, List.nil_append]
      rw [psb_plain f c _ h1 h2 h8, ih f rest hf']
      rfl
    by_cases h10 : c.toNat < 0x10000
    · have henc : encodeChar c = '\\' :: 'u' :: hex4 c.toNat := by
        unfold encodeChar
        rw [if_neg h1, if_neg h2, if_neg h3, if_neg h4, if_neg h5, if_neg h6,
          if_neg h7, if_neg h8, if_neg h9, if_pos h10]
      rw [henc]
      simp only [hex4, List.cons_append, List.nil_append]
      rw [psb_unicode, hex4Val_hex4 c.toNat (by omega)]
      have hsur := char_not_surrogate c
      have hns1 : ¬(0xd800 ≤ c.toNat ∧ c.toNat ≤ 0xdbff) := by omega
      have hns2 : ¬(0xdc00 ≤ c.toNat ∧ c.toNat ≤ 0xdfff) := by omega
      dsimp only
      rw [if_neg hns1, if_neg hns2, ih f rest hf']
      simp [Char.ofNat_toNat]
    · have hlt := char_toNat_lt c
      have hq : (c.toNat - 0x10000) / 0x400 < 0x400 := by omega
      have henc : encodeChar c =
          '\\' :: 'u' :: hex4 (0xd800 + (c.toNat - 0x10000) / 0x400) ++
          '\\' :: 'u' :: hex4 (0xdc00 + (c.toNat - 0x10000) % 0x400) := by
        unfold encodeChar
        rw [if_neg h1, if_neg h2, if_neg h3, if_neg h4, if_neg h5, if_neg h6,
          if_neg h7, if_neg h8, if_neg h9, if_neg h10]
      rw [henc]
      simp only [hex4, List.cons_append, List.nil_append, List.append_assoc]
      rw [psb_unicode_pair,
        hex4Val_hex4 (0xd800 + (c.toNat - 0x10000) / 0x400) (by omega)]
      have hin : 0xd800 ≤ 0xd800 + (c.toNat - 0x10000) / 0x400 ∧
          0xd800 + (c.toNat - 0x10000) / 0x400 ≤ 0xdbff := by omega
      dsimp only
      rw [if_pos hin]
      have hm : (c.toNat - 0x10000) % 0x400 < 0x400 := Nat.mod_lt _ (by omega)
      rw [hex4Val_hex4 (0xdc00 + (c.toNat - 0x10000) % 0x400) (by omega)]
      have hin2 : 0xdc00 ≤ 0xdc00 + (c.toNat - 0x10000) % 0x400 ∧
          0xdc00 + (c.toNat - 0x10000) % 0x400 ≤ 0xdfff := by omega
      dsimp only
      rw [if_pos hin2, ih f rest hf']
      have hcode : 0x10000 + (c.toNat - 0x10000) / 0x400 * 0x400 +
          (c.toNat - 0x10000) % 0x400 = c.toNat := by omega
      simp [hcode, Char.ofNat_toNat]

/-- Whitespace skipping stops at a non-whitespace head. -/
theorem skipWs_nonws {c : Char} (t : List Char) (h : jsonIsWs c = false) :
    jsonSkipWs (c :: t) = c :: t := by
  simp [jsonSkipWs, List.dropWhile_cons, h]

/-- Whitespace skipping passes over a space. -/
theorem skipWs_space (t : List Char) : jsonSkipWs (' ' :: t) = jsonSkipWs t := by
  simp [jsonSkipWs, List.dropWhile_cons, show jsonIsWs ' ' = true from rfl]

/-- The quoted encoding followed by anything, exposed as a cons. -/
theorem encodeString_append (s X : List Char) :
    encodeString s ++ X = '"' :: (encodeStrBody s ++ '"' :: X) := by
  simp [encodeString]

/-- Value-parser step: a string literal. -/
theorem pv_quote (f : Nat) (t : List Char) :
    parseVal (f + 1) ('"' :: t) =
      Option.map (fun p => (Json.str p.1, p.2)) (parseStringBody f t) := rfl

/-- Value-parser step: an array whose first item is a string literal. -/
theorem pv_arr_quote (f : Nat) (w : List Char) :
    parseVal (f + 1) ('[' :: '"' :: w) =
      (match parseVal f ('"' :: w) with
       | none => none
       | some (v, r2) =>
         match parseArrRest f r2 with
         | none => none
         | some (vs, r3) => some (Json.arr (v :: vs), r3)) := rfl

/-- Array-tail parser step: closing bracket. -/
theorem par_step_close (f : Nat) (r : List Char) :
    parseArrRest (f + 1) (']' :: r) = some ([], r) := rfl

/-- Array-tail parser step: a comma followed by the next item. -/
theorem par_step_comma (f : Nat) (r : List Char) :
    parseArrRest (f + 1) (',' :: r) =
      (match parseVal f (jsonSkipWs r) with
       | none => none
       | some (v, r2) =>
         match parseArrRest f r2 with
         | none => none
         | some (vs, r3) => some (v :: vs, r3)) := rfl

/-- Parsing the encoded form of a string consumes it whole. -/
theorem parseVal_encodeString (f : Nat) (s rest : List Char)
    (hf : s.length < f) :
    parseVal (f + 1) (encodeString s ++ rest) = some (Json.str s, rest) := by
  rw [encodeString_append, pv_quote, parseStringBody_encode s f rest hf]
  rfl

/-- The separated tail of a dumped string list parses back to the mapped
items when the fuel exceeds the tail's length. -/
theorem parseArrRest_sep :
    ∀ (ws : List (List Char)) (f : Nat) (rest : List Char),
      (sepItems ws).length < f →
      parseArrRest f (sepItems ws ++ ']' :: rest) =
        some (ws.map Json.str, rest) := by
  intro ws
  induction ws with
  | nil =>
    intro f rest hf
    cases f with
    | zero => omega
    | succ f =>
      show parseArrRest (f + 1) (']' :: rest) = some ([], rest)
      exact par_step_close f rest
  | cons s ws ih =>
    intro f rest hf
    have hlen : (sepItems (s :: ws)).length =
        2 + (encodeString s).length + (sepItems ws).length := by
      show (',' :: ' ' :: (encodeString s ++ sepItems ws)).length = _
      simp only [List.length_cons, List.length_append]
      omega
    have hstr := encodeString_len s
    have hfl : 2 + (encodeString s).length + (sepItems ws).length < f := by
      rw [← hlen]
      exact hf
    cases f with
    | zero => omega
    | succ f1 =>
    have hshape : sepItems (s :: ws) ++ ']' :: rest =
        ',' :: ' ' :: (encodeString s ++ (sepItems ws ++ ']' :: rest)) := by
      show (',' :: ' ' :: (encodeString s ++ sepItems ws)) ++ ']' :: rest = _
      simp [List.append_assoc]
    rw [hshape, par_step_comma, skipWs_space, encodeString_append,
      skipWs_nonws _ (by decide), ← encodeString_append]
    cases f1 with
    | zero => omega
    | succ f2 =>
    rw [parseVal_encodeString f2 s _ (by omega)]
    dsimp only
    rw [ih (f2 + 1) rest (by omega)]
    rfl

/-- Round trip for the program's stored payloads: `json.loads` inverts
`json.dumps` on every list of strings. -/
theorem json_loads_dumps_strings (ws : List (List Char)) :
    json_loads (json_dumps_strings ws) = some (Json.arr (ws.map Json.str)) := by
  cases ws with
  | nil => rfl
  | cons s ws =>
    have hstr := encodeString_len s
    have hbody := encodeStrBody_len s
    have hshape : json_dumps_strings (s :: ws) =
        '[' :: '"' ::
          (encodeStrBody s ++ '"' :: (sepItems ws ++ ']' :: [])) := by
      show '[' :: (dumpsStrItems (s :: ws) ++ [']']) = _
      rw [dumpsStrItems_cons, List.append_assoc, encodeString_append]
    unfold json_loads
    rw [hshape, skipWs_nonws _ (by decide)]
    rw [show ('[' :: '"' ::
        (encodeStrBody s ++ '"' :: (sepItems ws ++ ']' :: []))).length =
        (encodeStrBody s ++ '"' :: (sepItems ws ++ ']' :: [])).length + 2
      from by simp]
    rw [pv_arr_quote]
    have hlen2 : (encodeStrBody s ++ '"' :: (sepItems ws ++ ']' :: [])).length
        = (encodeStrBody s).length + (sepItems ws).length + 2 := by
      simp only [List.length_append, List.length_cons, List.length_nil]
      omega
    rw [show (encodeStrBody s ++ '"' :: (sepItems ws ++ ']' :: [])).length + 2
        = ((encodeStrBody s ++ '"' :: (sepItems ws ++ ']' :: [])).length + 1)
          + 1 from rfl]
    rw [pv_quote]
    rw [parseStringBody_encode s _ _ (by omega)]
    rw [Option.map_some']
    dsimp only
    rw [parseArrRest_sep ws _ [] (by omega)]
    rfl

/-- Claim C10: `get_worksheet_by_id` returns `None` (not an exception) for
an identifier with no stored row; for a freshly saved identifier it
returns the stored subject, topic, creation timestamp and user id
together with the JSON-decoded list that was encoded at save time. -/
theorem c10_get_round_trip :
    (∀ (db : DBState) (wid : List Char), findRow db wid = none →
      get_worksheet_by_id db wid = GetOutcome.notFound) ∧
    (∀ (db : DBState) (wid : List Char) (t : Nat)
      (subject topic : List Char) (ws : List (List Char))
      (uid : Option (List Char)),
      (∀ r ∈ db, r.id ≠ wid) →
      get_worksheet_by_id (save_worksheet db wid t subject topic ws uid)
          wid =
        GetOutcome.found wid subject topic (Json.arr (ws.map Json.str)) t
          uid) := by
  constructor
  · intro db wid h
    simp [get_worksheet_by_id, h]
  · intro db wid t subject topic ws uid hfresh
    have hdb : List.find? (fun (r : WorksheetRow) => r.id == wid) db =
        none := by
      rw [List.find?_eq_none]
      intro r hr
      simpa using hfresh r hr
    have hrow : findRow (save_worksheet db wid t subject topic ws uid) wid =
        some { id := wid, subject := subject, topic := topic,
               worksheet_content := json_dumps_strings ws,
               created_at := t, user_id := uid } := by
      unfold save_worksheet findRow
      rw [List.find?_append, hdb]
      simp [List.find?]
    unfold get_worksheet_by_id
    rw [hrow]
    dsimp only
    rw [json_loads_dumps_strings]

/-- Witness for C10: a missing identifier and a fresh save-then-get on a
concrete table. -/
theorem c10_witness :
    get_worksheet_by_id db0 (strL "nothere") = GetOutcome.notFound ∧
    get_worksheet_by_id
        (save_worksheet db0 (strL "w9") 7 (strL "Science") (strL "Atoms")
          [strL "q1", strL "q2"] (some (strL "u1"))) (strL "w9") =
      GetOutcome.found (strL "w9") (strL "Science") (strL "Atoms")
        (Json.arr ([strL "q1", strL "q2"].map Json.str)) 7
        (some (strL "u1")) :=
  ⟨c10_get_round_trip.1 db0 (strL "nothere") (by rfl),
   c10_get_round_trip.2 db0 (strL "w9") 7 (strL "Science") (strL "Atoms")
     [strL "q1", strL "q2"] (some (strL "u1")) (by decide)⟩

end WorksheetGen
